import Mathlib

/-!
Verification development for the PD1 raw-data processing pipeline
(`mfpbench/pd1/processing/process_script.py`).

The Python script is shallowly embedded: pandas/numpy values are modelled
with rationals (`ℚ`) plus an explicit not-a-number marker where NaN matters,
dataframes are lists of rows, and filesystem effects are explicit stores.
Every definition is translated from the source script; floats are modelled
exactly by rationals.
-/

namespace PD1

/-! ### Floats with NaN (for `train_cost` curves)

A Python float that can be NaN.  Addition propagates NaN exactly as IEEE
addition does for the (finite) values the script manipulates. -/

inductive PFloat where
  | nan : PFloat
  | val (q : ℚ) : PFloat
deriving DecidableEq

def PFloat.add : PFloat → PFloat → PFloat
  | .nan, _ => .nan
  | _, .nan => .nan
  | .val a, .val b => .val (a + b)

/-- `itertools.accumulate` starting from `acc` (already holding the first
partial sum). -/
def accumulateFrom (acc : PFloat) : List PFloat → List PFloat
  | [] => []
  | x :: xs =>
    let a := acc.add x
    a :: accumulateFrom a xs

/-- `itertools.accumulate`: running partial sums. -/
def accumulate : List PFloat → List PFloat
  | [] => []
  | x :: xs => x :: accumulateFrom x xs

/-- `safe_accumulate` (process_script.py lines 24-33), list branch:
`accumulate(f if f is not None else fill for f in x)`.  A `none` entry is a
Python `None`; a `some .nan` entry is a float NaN. -/
def safe_accumulate (x : List (Option PFloat)) (fill : PFloat) : List PFloat :=
  accumulate (x.map (fun f => f.getD fill))

/-- A raw `train_cost` cell before processing: `None`, a scalar NaN, or a
list of optional floats (the per-step curve). -/
inductive TrainCostIn where
  | scalarNone : TrainCostIn
  | scalarNaN : TrainCostIn
  | arr (l : List (Option PFloat)) : TrainCostIn
deriving DecidableEq

/-- A processed `train_cost` cell. -/
inductive TrainCostOut where
  | scalarNaN : TrainCostOut
  | arr (l : List PFloat) : TrainCostOut
deriving DecidableEq

/-- The per-row transform at process_script.py lines 217-220:
`np.nan if r in (None, np.nan) else list(safe_accumulate(r, fill=np.nan))`. -/
def processTrainCost : TrainCostIn → TrainCostOut
  | .scalarNone => .scalarNaN
  | .scalarNaN => .scalarNaN
  | .arr l => .arr (safe_accumulate l .nan)

/-- Sum of a raw curve's entries with `None` filled by NaN (the value the
`i`-th accumulated entry must equal, for the first `i+1` raw entries). -/
def sumFilled (l : List (Option PFloat)) : PFloat :=
  (l.map (fun f => f.getD PFloat.nan)).foldl PFloat.add (PFloat.val 0)

/-! ### Column dropping per dataset group (process_script.py lines 294-307) -/

/-- The four dataset groups that vary `activation_fn`. -/
def has_activation_fn : List String :=
  ["fashion_mnist-max_pooling_cnn-256",
   "fashion_mnist-max_pooling_cnn-2048",
   "mnist-max_pooling_cnn-256",
   "mnist-max_pooling_cnn-2048"]

/-- The columns dropped for a group named `fname` in the given mode
(process_script.py lines 300-305). -/
def dropColumnsFor (process_tabular : Bool) (fname : String) : List String :=
  let base := ["dataset", "model", "batch_size"]
  if process_tabular then base ++ ["activation_fn"]
  else if fname ∈ has_activation_fn then base
  else base ++ ["activation_fn"]

/-! ### Archive unpacker (`Datapack._unpack`, process_script.py lines 59-120)

The filesystem is a list of (filename, content) pairs; contents are opaque
numeric ids (the claim is about presence and caching, not parsing). -/

def lookupFile (store : List (String × ℕ)) (name : String) : Option ℕ :=
  (store.find? (fun pr => decide (pr.1 = name))).map Prod.snd

/-- `Datapack._rawname`. -/
def rawname (matched : Bool) (phase : ℕ) : String :=
  "pd1_" ++ (if matched then "matched" else "unmatched")
    ++ "_phase" ++ toString phase ++ "_results"

/-- `Datapack._archive_path`. -/
def archive_path (matched : Bool) (phase : ℕ) : String :=
  rawname matched phase ++ ".jsonl.gz"

/-- `Datapack.unpacked_path`. -/
def unpacked_path (matched : Bool) (phase : ℕ) : String :=
  rawname matched phase ++ "_unpacked.csv"

/-- `Datapack._unpack`: raise `FileNotFoundError` if the archive is missing;
otherwise, on a cache miss parse the archive and write the cache, and on a
cache hit read the cache back (re-parsing list columns) without writing.
Returns the loaded table id together with the updated store. -/
def unpack (matched : Bool) (phase : ℕ) (store : List (String × ℕ)) :
    Except String (ℕ × List (String × ℕ)) :=
  match lookupFile store (archive_path matched phase) with
  | none => .error "FileNotFoundError"
  | some archiveContent =>
    match lookupFile store (unpacked_path matched phase) with
    | none =>
      .ok (archiveContent, store ++ [(unpacked_path matched phase, archiveContent)])
    | some cached => .ok (cached, store)

/-! ### Generic list helpers used by several steps -/

/-- Unique values in order of first appearance (pandas `unique`/`factorize`). -/
def dedupFirst {α : Type} [DecidableEq α] : List α → List α
  | [] => []
  | x :: xs => x :: (dedupFirst xs).filter (fun y => decide (y ≠ x))

/-- Zero-based position of the first occurrence of `s` in `l`
(`pandas` code of a value inside an index's levels). -/
def posOf {α : Type} [DecidableEq α] : List α → α → ℕ
  | [], _ => 0
  | x :: xs, s => if x = s then 0 else posOf xs s + 1

/-- `drop_duplicates(..., keep="last")`: keep a row only if no later row
has the same key; relative order of kept rows is preserved. -/
def dropDupKeepLast {α κ : Type} [DecidableEq κ] (key : α → κ) : List α → List α
  | [] => []
  | r :: rest =>
    if key r ∈ rest.map key then dropDupKeepLast key rest
    else r :: dropDupKeepLast key rest

/-! ### The hyperparameter tuple and the divergence filter
(process_script.py lines 21, 247-287) -/

/-- `HPS = ['lr_decay_factor', 'lr_initial', 'lr_power', 'opt_momentum']`:
a configuration is a 4-tuple of those values. -/
abbrev HP := ℚ × ℚ × ℚ × ℚ

/-- One exploded row at divergence-filter time: its hyperparameter tuple and
its (already accumulated, non-NaN) `train_cost` value. -/
structure CRow where
  hp : HP
  train_cost : ℚ
deriving DecidableEq

/-- `Series.max` of a nonempty list (the filter only evaluates it on the
rows of a group, which is nonempty). -/
def listMax : List ℚ → ℚ
  | [] => 0
  | x :: xs => xs.foldl max x

/-- `v["train_cost"].max()` for the group of `rows` with tuple `k`. -/
def groupMaxCost (rows : List CRow) (k : HP) : ℚ :=
  listMax ((rows.filter (fun r => decide (r.hp = k))).map CRow.train_cost)

/-- `np.quantile(xs, q)` with the default linear interpolation method:
sort ascending, `h = q*(n-1)`, interpolate between the two neighbouring
order statistics. -/
def quantileLinear (q : ℚ) (xs : List ℚ) : ℚ :=
  let s := List.insertionSort (· ≤ ·) xs
  let n := s.length
  let h := q * ((n : ℚ) - 1)
  let i := (Int.floor h).toNat
  let g := h - ((Int.floor h : ℤ) : ℚ)
  let lo := s.getD i 0
  let hi := s.getD (i + 1) lo
  lo + g * (hi - lo)

/-- The quantile threshold of the per-group maxima of cumulative cost
(`np.quantile(maxes, q)` at process_script.py lines 256-260 / 277-281). -/
def divergence_threshold (q : ℚ) (rows : List CRow) : ℚ :=
  quantileLinear q ((dedupFirst (rows.map CRow.hp)).map (groupMaxCost rows))

/-- The quantile divergence filter (process_script.py lines 255-266 and
276-287): group rows by the hyperparameter tuple, compute the quantile of
the per-group maxima, and concatenate the groups whose maximum is strictly
below it.  `pd.concat` over an empty generator raises `ValueError`,
modelled by `none`. -/
def divergence_filter (q : ℚ) (rows : List CRow) : Option (List CRow) :=
  let keys := dedupFirst (rows.map CRow.hp)
  let thr := divergence_threshold q rows
  let keep := keys.filter (fun k => decide (groupMaxCost rows k < thr))
  if keep = [] then none
  else some (keep.flatMap (fun k => rows.filter (fun r => decide (r.hp = k))))

/-! ### Surrogate-mode deduplication (process_script.py lines 324-335) -/

/-- A row of a per-dataset table in surrogate mode: hyperparameters,
activation function (present only for the four special groups), the step,
and the remaining metric payload. -/
structure SRow where
  hp : HP
  activation_fn : ℚ
  epoch : ℚ
  metric : ℚ
deriving DecidableEq

/-- Whether the group's dedup key includes `activation_fn`
(`hps = [*hps, "activation_fn"] if fname in has_activation_fn else ...`). -/
def fnameHasAct (fname : String) : Bool :=
  decide (fname ∈ has_activation_fn)

/-- The dedup key `[*hps, "epoch"]` (with `activation_fn` when present). -/
def surrogateKey (withAct : Bool) (r : SRow) : HP × Option ℚ × ℚ :=
  (r.hp, if withAct then some r.activation_fn else none, r.epoch)

/-- `dataset.drop_duplicates([*hps, "epoch"], keep="last")`. -/
def surrogate_dedup (fname : String) (rows : List SRow) : List SRow :=
  dropDupKeepLast (surrogateKey (fnameHasAct fname)) rows

/-! ### Tabular re-indexing (`preprocess_csv_for_tabular_benchmark_dfs`,
process_script.py lines 340-400) -/

/-- A row of a written `{...}_tabular.csv` file: the hyperparameter tuple
and the recorded step value. -/
structure TRow where
  hp : HP
  epoch : ℚ
deriving DecidableEq

def defaultTRow : TRow := ⟨((0 : ℚ), (0 : ℚ), (0 : ℚ), (0 : ℚ)), 0⟩

/-- `df.loc[:, HPS].drop_duplicates().index`: the 0-based positions of the
first occurrence of each distinct hyperparameter tuple. -/
def firstOccPositions (t : List TRow) : List ℕ :=
  (List.range t.length).filter
    (fun p => !decide ((t.getD p defaultTRow).hp ∈ (t.take p).map TRow.hp))

/-- `idx_count` as the script computes it (lines 351-355):
`unique_df.index.diff()[1:]` followed by `np.insert(..., -1, v)` with
`v = df.index[-1] - unique_df.index[-1] + 1`.  `np.insert` at position `-1`
places `v` BEFORE the last difference; on an empty difference array (a
single distinct configuration) it raises `IndexError`, modelled by `none`. -/
def idxCountCode (t : List TRow) : Option (List ℤ) :=
  let u := firstOccPositions t
  let ds : List ℤ := List.zipWith (fun a b => ((b : ℕ) : ℤ) - ((a : ℕ) : ℤ)) u u.tail
  match ds with
  | [] => none
  | d :: ds' =>
    let v : ℤ := ((t.length : ℤ) - 1) - (u.getLastD 0 : ℤ) + 1
    some ((d :: ds').dropLast ++ v :: [(d :: ds').getLastD 0])

/-- `uniques[counts.argmax()]` after `np.unique(idx_count)`: the smallest
value of maximal multiplicity (`np.unique` sorts ascending and `argmax`
returns the first maximum). -/
def modalValue (xs : List ℤ) : ℤ :=
  let uniq := List.insertionSort (· ≤ ·) (dedupFirst xs)
  uniq.foldl (fun best u => if xs.count best < xs.count u then u else best)
    (uniq.headD 0)

/-- The removal plan of lines 357-365: the flagged first-occurrence
positions (`idx_to_remove`) and the flattened row ranges
(`all_rows_to_remove`). -/
structure ModalOut where
  removedRows : List ℕ
  removedFirsts : List ℕ
deriving DecidableEq

def modal_analysis (t : List TRow) : Option ModalOut :=
  match idxCountCode t with
  | none => none
  | some ic =>
    let u := firstOccPositions t
    let modal := modalValue ic
    let flagged := (List.range ic.length).filter (fun j => decide (ic.getD j 0 ≠ modal))
    some ⟨(flagged.map (fun j =>
            (List.range (ic.getD j 0).toNat).map (fun off => u.getD j 0 + off))).flatten,
          flagged.map (fun j => u.getD j 0)⟩

/-- `df.drop(index=all_rows_to_remove)`: the table that survives the modal
step-count filter. -/
def modal_filter (t : List TRow) : Option (List TRow) :=
  (modal_analysis t).map (fun a =>
    ((List.range t.length).filter (fun p => decide (p ∉ a.removedRows))).map
      (fun p => t.getD p defaultTRow))

/-! #### Epoch-level step remapping (process_script.py lines 388-394) -/

/-- `{value: i for i, value in enumerate(df.loc[df.id.where(df.id == 0)
.dropna().index].epoch, start=1)}`: the mapping is built from the rows
whose `id` equals 0.  A Python dict keeps the last binding of a duplicated
key, hence the lookup takes the last matching pair. -/
def build_epoch_mapping (rows : List (ℕ × ℚ)) : List (ℚ × ℕ) :=
  let es := (rows.filter (fun r => decide (r.1 = 0))).map Prod.snd
  es.zip (List.range' 1 es.length)

/-- `df["epoch"] = df['epoch'].map(mapping)`: epochs absent from the
mapping become NaN (`none`). -/
def epoch_level_reindex (rows : List (ℕ × ℚ)) : List (ℕ × Option ℕ) :=
  let mapping := build_epoch_mapping rows
  rows.map (fun r =>
    (r.1, ((mapping.reverse.find? (fun pr => decide (pr.1 = r.2))).map Prod.snd)))

/-! #### Sub-epoch subsampling (`handle_subepoch_fidelities`,
process_script.py lines 403-435) -/

/-- `np.linspace(a, b, num=num, endpoint=True, dtype=int)`: evenly spaced
samples with the endpoint forced to `b`, truncated to integers. -/
def linspace_int (a b : ℤ) (num : ℕ) : List ℤ :=
  if num = 0 then []
  else if num = 1 then [a]
  else ((List.range (num - 1)).map
          (fun i => Int.floor ((a : ℚ) + ((i : ℕ) : ℚ) * (((b : ℚ) - (a : ℚ)) / ((num : ℚ) - 1)))))
        ++ [b]

/-- `_retain_list` for stride `k` over `n` steps:
`np.linspace(1, n, num=(len(_full_list)-1)//jump_step, ...)` where
`_full_list = np.arange(n+1)`. -/
def retain_list (n k : ℕ) : List ℤ :=
  linspace_int 1 (n : ℤ) ((n + 1 - 1) / k)

/-- `drop_list = list(set(_full_list) - set(_retain_list))`. -/
def drop_list (n k : ℕ) : List ℤ :=
  ((List.range (n + 1)).map (fun s => ((s : ℕ) : ℤ))).filter
    (fun s => decide (s ∉ retain_list n k))

/-- Per configuration, the renumbered steps (`1..len`) that survive the
stride-`k` subsampling.  `n` is the step count of the LAST configuration:
the loop variable `_idx_match` of the renumbering loop leaks into the
subsampling code. -/
def subsample_kept (cfgs : List (List ℚ)) (k : ℕ) : List (List ℕ) :=
  let n := (cfgs.getLastD []).length
  cfgs.map (fun l =>
    (List.range' 1 l.length).filter (fun s => decide (((s : ℕ) : ℤ) ∉ drop_list n k)))

/-- One stride of `handle_subepoch_fidelities`: renumber every
configuration's steps to `1..len`, null out and drop the steps in
`drop_list`, build the (id, epoch) MultiIndex and relabel both levels with
`set_levels`.  `df.loc[1]` on an empty frame raises `KeyError` and
`set_levels` with fewer labels than codes raises `ValueError`; both are
modelled by `none`.  The output lists, per surviving configuration, the new
id paired with the relabelled step values. -/
def handle_subepoch_stride (cfgs : List (List ℚ)) (k : ℕ) :
    Option (List (ℕ × List ℕ)) :=
  let kept := subsample_kept cfgs k
  let keptIdx := (List.range kept.length).filter (fun c => decide (kept.getD c [] ≠ []))
  if keptIdx = [] then none
  else
    let m1 := (kept.getD (keptIdx.headD 0) []).length
    let levels1 := dedupFirst kept.flatten
    if m1 < levels1.length then none
    else some ((List.range keptIdx.length).map (fun j =>
      (j + 1, (kept.getD (keptIdx.getD j 0) []).map (fun s => posOf levels1 s + 1))))

/-! #### The whole per-file preprocessing step and the loop over files -/

def charsStartWith : List Char → List Char → Bool
  | _, [] => true
  | [], _ :: _ => false
  | a :: as, b :: bs => decide (a = b) && charsStartWith as bs

def charsContain : List Char → List Char → Bool
  | [], pat => charsStartWith [] pat
  | a :: as, pat => charsStartWith (a :: as) pat || charsContain as pat

def charsEndWith (l pat : List Char) : Bool :=
  charsStartWith l.reverse pat.reverse

/-- `fidelity_is_sub_epoch` (lines 376-381): substring test of the file
name against "imagenet", "uniref", "xformer". -/
def fidelity_is_sub_epoch (name : String) : Bool :=
  charsContain name.data "imagenet".data
    || charsContain name.data "uniref".data
    || charsContain name.data "xformer".data

def seqOpts {α : Type} : List (Option α) → Option (List α)
  | [] => some []
  | none :: _ => none
  | some a :: rest => (seqOpts rest).map (fun l => a :: l)

/-- The result of preprocessing one tabular csv. -/
inductive POut where
  | skipped : POut
  | epochLevel (rows : List (ℕ × Option ℕ)) : POut
  | subEpoch (tables : List (List (ℕ × List ℕ))) : POut
deriving DecidableEq

/-- `preprocess_csv_for_tabular_benchmark_dfs`: skip non-tabular names;
run the modal step-count filter; assign 1-based configuration ids at the
surviving first occurrences and forward-fill them (`pd.Series` assignment
aligns on the surviving row labels; `astype(int)` on a remaining NaN
raises); then branch on sub-epoch versus epoch-level re-indexing.  Python
exceptions are modelled by `.error`. -/
def preprocess_csv (name : String) (t : List TRow) : Except String POut :=
  if charsEndWith name.data "_tabular.csv".data = false then .ok .skipped
  else match modal_analysis t with
  | none => .error "IndexError: np.insert into an empty array"
  | some a =>
    let survivors := (List.range t.length).filter (fun p => decide (p ∉ a.removedRows))
    let keptFirsts := (firstOccPositions t).filter (fun p => decide (p ∉ a.removedFirsts))
    let assigned := (keptFirsts.zip (List.range' 1 keptFirsts.length)).filter
      (fun pr => decide (pr.1 ∈ survivors))
    let withIds : List (Option ℕ × ℚ) := survivors.map (fun p =>
      (((assigned.filter (fun pr => decide (pr.1 ≤ p))).getLast?).map Prod.snd,
       (t.getD p defaultTRow).epoch))
    match seqOpts (withIds.map (fun pr => pr.1.map (fun i => (i, pr.2)))) with
    | none => .error "ValueError: cannot convert NaN to integer"
    | some idRows =>
      if fidelity_is_sub_epoch name then
        let uids := dedupFirst (idRows.map Prod.fst)
        let cfgs := uids.map (fun uid =>
          (idRows.filter (fun r => decide (r.1 = uid))).map Prod.snd)
        match seqOpts ([1, 2, 5, 10].map (fun k => handle_subepoch_stride cfgs k)) with
        | none => .error "sub-epoch re-indexing error"
        | some outs => .ok (.subEpoch outs)
      else .ok (.epochLevel (epoch_level_reindex idRows))

/-- The caller's loop (process_script.py lines 310-322): one call per
dataset group; a raised exception aborts the whole loop. -/
def process_all_tabular : List (String × List TRow) → Except String (List POut)
  | [] => .ok []
  | (name, t) :: rest =>
    match preprocess_csv name t with
    | .error e => .error e
    | .ok out =>
      match process_all_tabular rest with
      | .error e => .error e
      | .ok outs => .ok (out :: outs)

/-! ### Concrete example tables used by counterexamples and witnesses -/

/-- Twenty-one groups: twenty whose maximum cumulative cost is 1 and one
outlier group at 100.  With 21 per-group maxima the 0.95 quantile falls
exactly on the 20th order statistic, which is 1. -/
def rows21 : List CRow :=
  (List.range 20).map (fun i => ⟨(((i : ℕ) : ℚ), 0, 0, 0), 1⟩)
    ++ [⟨((100 : ℚ), 0, 0, 0), 100⟩]

/-- Two groups, maxima 1 and 100: the interpolated 0.95 quantile is
1901/20, strictly between them. -/
def rows2q : List CRow :=
  [⟨((1 : ℚ), 0, 0, 0), 1⟩, ⟨((2 : ℚ), 0, 0, 0), 100⟩]

/-- Three duplicate-key surrogate rows (differing payload) plus one other key. -/
def rowsS : List SRow :=
  [⟨((1 : ℚ), 0, 0, 0), 1, 1, 10⟩,
   ⟨((1 : ℚ), 0, 0, 0), 1, 1, 20⟩,
   ⟨((2 : ℚ), 0, 0, 0), 1, 1, 30⟩,
   ⟨((1 : ℚ), 0, 0, 0), 1, 1, 40⟩]

def hpA : HP := ((0 : ℚ), 0, 0, 0)
def hpB : HP := ((1 : ℚ), 0, 0, 0)
def hpC : HP := ((2 : ℚ), 0, 0, 0)

/-- Three configurations with 2, 2 and 3 recorded steps: the modal count
is 2, so the script should remove exactly `hpC`'s three rows. -/
def t10 : List TRow :=
  [⟨hpA, 10⟩, ⟨hpA, 20⟩, ⟨hpB, 10⟩, ⟨hpB, 20⟩, ⟨hpC, 10⟩, ⟨hpC, 20⟩, ⟨hpC, 30⟩]

/-- A table with a single distinct configuration: `np.insert` into the
empty difference array raises `IndexError`. -/
def tBad : List TRow := [⟨hpA, 1⟩, ⟨hpA, 2⟩]

/-- A well-formed epoch-level table: two configurations, two steps each. -/
def tGood : List TRow := [⟨hpA, 1⟩, ⟨hpA, 2⟩, ⟨hpB, 1⟩, ⟨hpB, 2⟩]

/-- Two sub-epoch configurations with two steps each. -/
def cfgs2 : List (List ℚ) := [[0, 0], [0, 0]]

/-- One sub-epoch configuration with ten steps. -/
def cfgs10 : List (List ℚ) := [[0, 0, 0, 0, 0, 0, 0, 0, 0, 0]]

/-- A filesystem with only the matched/phase-1 archive present. -/
def storeC6 : List (String × ℕ) := [(archive_path true 1, 7)]

/-! ## Helper lemmas -/

theorem getD_map_of_lt {α β : Type} (f : α → β) (l : List α) (c : ℕ)
    (hc : c < l.length) (d : α) (d' : β) : (l.map f).getD c d' = f (l.getD c d) := by
  rw [List.getD_eq_getElem?_getD, List.getD_eq_getElem?_getD, List.getElem?_map,
    List.getElem?_eq_getElem hc]
  rfl

theorem PFloat.val_zero_add (b : PFloat) : (PFloat.val 0).add b = b := by
  cases b <;> simp [PFloat.add]

theorem PFloat.add_nan (a : PFloat) : a.add .nan = .nan := by
  cases a <;> rfl

theorem foldl_add_from_nan : ∀ l : List PFloat, l.foldl PFloat.add .nan = .nan
  | [] => rfl
  | x :: xs => by
    rw [List.foldl_cons]
    have hred : PFloat.add .nan x = .nan := by cases x <;> rfl
    rw [hred]
    exact foldl_add_from_nan xs

theorem foldl_add_of_nan_mem :
    ∀ (l : List PFloat) (a : PFloat), PFloat.nan ∈ l → l.foldl PFloat.add a = .nan
  | [], _, h => absurd h (List.not_mem_nil _)
  | x :: xs, a, h => by
    rw [List.foldl_cons]
    rcases List.mem_cons.mp h with rfl | hxs
    · rw [PFloat.add_nan]
      exact foldl_add_from_nan xs
    · exact foldl_add_of_nan_mem xs _ hxs

theorem accumulateFrom_getD (d : PFloat) :
    ∀ (l : List PFloat) (acc : PFloat) (i : ℕ), i < l.length →
      (accumulateFrom acc l).getD i d = (l.take (i + 1)).foldl PFloat.add acc
  | [], _, i, h => absurd h (Nat.not_lt_zero i)
  | x :: xs, acc, 0, _ => by
    simp [accumulateFrom]
  | x :: xs, acc, i + 1, h => by
    show (accumulateFrom acc (x :: xs)).getD (i + 1) d = _
    rw [accumulateFrom]
    show (accumulateFrom (acc.add x) xs).getD i d = _
    rw [accumulateFrom_getD d xs (acc.add x) i (by simpa using h)]
    rfl

theorem safe_accumulate_getD :
    ∀ (l : List (Option PFloat)) (i : ℕ), i < l.length →
      (safe_accumulate l .nan).getD i (.val 0) = sumFilled (l.take (i + 1))
  | [], i, h => absurd h (Nat.not_lt_zero i)
  | x :: xs, 0, _ => by
    show ((x.getD .nan) :: accumulateFrom (x.getD .nan) (xs.map _)).getD 0 _ = _
    rw [List.getD_cons_zero]
    show _ = [x.getD PFloat.nan].foldl PFloat.add (PFloat.val 0)
    rw [List.foldl_cons, List.foldl_nil, PFloat.val_zero_add]
  | x :: xs, i + 1, h => by
    show ((x.getD .nan) :: accumulateFrom (x.getD .nan) (xs.map _)).getD (i + 1) _ = _
    rw [List.getD_cons_succ]
    rw [accumulateFrom_getD _ _ _ i (by simpa using h)]
    show _ = ((x.getD PFloat.nan) :: (xs.take (i + 1)).map (fun f => f.getD .nan)).foldl
      PFloat.add (PFloat.val 0)
    rw [List.foldl_cons, PFloat.val_zero_add, List.map_take]

/-! ## Claim theorems -/

/-- C7: the cost transform leaves a scalar NaN unchanged, and replaces a
list by its running cumulative sum with `None` filled as NaN; every
accumulated entry at or after the first undefined raw entry is NaN. -/
theorem C7_train_cost_accumulate (l : List (Option PFloat)) (i j : ℕ) :
    processTrainCost .scalarNaN = .scalarNaN ∧
    (i < l.length →
      (safe_accumulate l .nan).getD i (.val 0) = sumFilled (l.take (i + 1))) ∧
    (j ≤ i → i < l.length → l.getD j (some (.val 0)) = none →
      (safe_accumulate l .nan).getD i (.val 0) = .nan) := by
  refine ⟨rfl, fun h => safe_accumulate_getD l i h, fun hji h hnone => ?_⟩
  rw [safe_accumulate_getD l i h]
  apply foldl_add_of_nan_mem
  have hj : (l.take (i + 1)).getD j (some (.val 0)) = none := by
    rw [List.getD_eq_getElem?_getD, List.getElem?_take, if_pos (by omega),
      ← List.getD_eq_getElem?_getD]
    exact hnone
  have hjlt : j < (l.take (i + 1)).length := by
    by_contra hge
    push_neg at hge
    rw [List.getD_eq_getElem?_getD, List.getElem?_eq_none hge] at hj
    exact Option.noConfusion hj
  have hget : (l.take (i + 1)).get ⟨j, hjlt⟩ = none := by
    rw [List.getD_eq_getElem?_getD, List.getElem?_eq_getElem hjlt] at hj
    simpa using hj
  refine List.mem_map.mpr ⟨none, ?_, rfl⟩
  exact hget ▸ List.get_mem _ j hjlt

/-- C7 witness: on `[2, None, 3]` the third accumulated entry is NaN and
the first equals the one-element sum. -/
theorem C7_train_cost_accumulate_witness :
    (safe_accumulate [some (.val 2), none, some (.val 3)] .nan).getD 2 (.val 0) = .nan ∧
    (safe_accumulate [some (.val 2), none, some (.val 3)] .nan).getD 0 (.val 0)
      = sumFilled [some (.val 2)] :=
  ⟨(C7_train_cost_accumulate [some (.val 2), none, some (.val 3)] 2 1).2.2
      (by decide) (by decide) (by decide),
   (C7_train_cost_accumulate [some (.val 2), none, some (.val 3)] 0 0).2.1 (by decide)⟩

/-- C8 counterexample: in tabular mode, `activation_fn` is dropped even for
one of the four groups that vary it, contradicting the claim that it is
retained for those groups. -/
theorem C8_tabular_drops_activation :
    "fashion_mnist-max_pooling_cnn-256" ∈ has_activation_fn ∧
    "activation_fn" ∈ dropColumnsFor true "fashion_mnist-max_pooling_cnn-256" := by
  constructor
  · decide
  · decide

/-- C8 (amended): `dataset`, `model` and `batch_size` are always dropped;
in surrogate mode `activation_fn` is dropped exactly when the group is not
one of the four that vary it; in tabular mode it is always dropped. -/
theorem C8_drop_columns (b : Bool) (fname : String) :
    "dataset" ∈ dropColumnsFor b fname ∧
    "model" ∈ dropColumnsFor b fname ∧
    "batch_size" ∈ dropColumnsFor b fname ∧
    ("activation_fn" ∈ dropColumnsFor false fname ↔ fname ∉ has_activation_fn) ∧
    "activation_fn" ∈ dropColumnsFor true fname := by
  unfold dropColumnsFor
  by_cases h : fname ∈ has_activation_fn <;> cases b <;> simp [h]

/-- C8 witness: evaluation at a concrete group name in both modes. -/
theorem C8_drop_columns_witness :
    "activation_fn" ∈ dropColumnsFor true "mnist-max_pooling_cnn-256" ∧
    "activation_fn" ∉ dropColumnsFor false "mnist-max_pooling_cnn-256" :=
  ⟨(C8_drop_columns true "mnist-max_pooling_cnn-256").2.2.2.2,
   fun hmem =>
     ((C8_drop_columns false "mnist-max_pooling_cnn-256").2.2.2.1.mp hmem)
       (by decide)⟩

/-- C6: the unpacker errors exactly when the archive is absent (whatever
the cache state); with the archive present it writes the cache exactly on
a cache miss and otherwise returns the cached table with the store
unchanged. -/
theorem C6_unpack_cache (m : Bool) (p : ℕ) (store : List (String × ℕ)) :
    ((unpack m p store).isOk = false ↔ lookupFile store (archive_path m p) = none) ∧
    (∀ a, lookupFile store (archive_path m p) = some a →
      lookupFile store (unpacked_path m p) = none →
      unpack m p store = .ok (a, store ++ [(unpacked_path m p, a)])) ∧
    (∀ a c, lookupFile store (archive_path m p) = some a →
      lookupFile store (unpacked_path m p) = some c →
      unpack m p store = .ok (c, store)) := by
  unfold unpack
  rcases h1 : lookupFile store (archive_path m p) with _ | a <;>
    rcases h2 : lookupFile store (unpacked_path m p) with _ | c <;>
      simp [h1, h2, Except.isOk, Except.toBool]

/-- C6 witness: with only the archive present, unpacking parses it and
writes the cache file. -/
theorem C6_unpack_cache_witness :
    unpack true 1 storeC6 = .ok (7, storeC6 ++ [(unpacked_path true 1, 7)]) :=
  (C6_unpack_cache true 1 storeC6).2.1 7 (by decide) (by decide)

/-- C5: the claim is right and the code is wrong: the step mapping is built
from rows with `id == 0`, but ids are 1-based, so the mapping is empty and
every remapped epoch is NaN instead of a dense 1-based sequence. -/
theorem C5_epoch_mapping_empty (rows : List (ℕ × ℚ))
    (h : ∀ r ∈ rows, 1 ≤ r.1) :
    epoch_level_reindex rows = rows.map (fun r => (r.1, none)) := by
  have hfilter : rows.filter (fun r => decide (r.1 = 0)) = [] := by
    rw [List.filter_eq_nil_iff]
    intro r hr
    have := h r hr
    simp
    omega
  unfold epoch_level_reindex build_epoch_mapping
  rw [hfilter]
  simp

/-- C5 witness: a two-configuration epoch-level table comes out with every
epoch undefined. -/
theorem C5_epoch_mapping_empty_witness :
    epoch_level_reindex [(1, (45 : ℚ)), (1, 90), (2, 45), (2, 90)]
      = [(1, none), (1, none), (2, none), (2, none)] :=
  C5_epoch_mapping_empty [(1, 45), (1, 90), (2, 45), (2, 90)] (by decide)

theorem mem_of_mem_dropDupKeepLast {α κ : Type} [DecidableEq κ] (key : α → κ) :
    ∀ (l : List α) (a : α), a ∈ dropDupKeepLast key l → a ∈ l
  | [], a, h => absurd h (List.not_mem_nil a)
  | r :: rest, a, h => by
    by_cases hk : key r ∈ rest.map key
    · rw [dropDupKeepLast, if_pos hk] at h
      exact List.mem_cons_of_mem r (mem_of_mem_dropDupKeepLast key rest a h)
    · rw [dropDupKeepLast, if_neg hk] at h
      rcases List.mem_cons.mp h with rfl | h'
      · exact List.mem_cons_self a rest
      · exact List.mem_cons_of_mem r (mem_of_mem_dropDupKeepLast key rest a h')

theorem pairwise_dropDupKeepLast {α κ : Type} [DecidableEq κ] (key : α → κ) :
    ∀ l : List α, (dropDupKeepLast key l).Pairwise (fun a b => key a ≠ key b)
  | [] => List.Pairwise.nil
  | r :: rest => by
    by_cases hk : key r ∈ rest.map key
    · rw [dropDupKeepLast, if_pos hk]
      exact pairwise_dropDupKeepLast key rest
    · rw [dropDupKeepLast, if_neg hk]
      refine List.Pairwise.cons (fun b hb heq => ?_) (pairwise_dropDupKeepLast key rest)
      exact hk (heq ▸ List.mem_map_of_mem key (mem_of_mem_dropDupKeepLast key rest b hb))

theorem filter_dropDupKeepLast {α κ : Type} [DecidableEq κ] (key : α → κ) (k : κ) :
    ∀ l : List α,
      (dropDupKeepLast key l).filter (fun r => decide (key r = k))
        = ((l.filter (fun r => decide (key r = k))).getLast?).toList
  | [] => rfl
  | r :: rest => by
    by_cases hk : key r ∈ rest.map key
    · rw [dropDupKeepLast, if_pos hk, filter_dropDupKeepLast key k rest]
      by_cases hr : key r = k
      · have hne : rest.filter (fun x => decide (key x = k)) ≠ [] := by
          obtain ⟨x, hx, hxe⟩ := List.mem_map.mp hk
          intro hnil
          have hxf : x ∈ rest.filter (fun x' => decide (key x' = k)) :=
            List.mem_filter.mpr ⟨hx, by simp [hxe, hr]⟩
          rw [hnil] at hxf
          exact List.not_mem_nil x hxf
        rw [List.filter_cons, if_pos (by simp [hr])]
        obtain ⟨y, ys, hys⟩ := List.exists_cons_of_ne_nil hne
        rw [hys, List.getLast?_cons_cons]
      · rw [List.filter_cons, if_neg (by simp [hr])]
    · rw [dropDupKeepLast, if_neg hk]
      by_cases hr : key r = k
      · have hnone : ∀ (t : List α), (∀ x ∈ t, x ∈ rest) →
            t.filter (fun x => decide (key x = k)) = [] := by
          intro t ht
          rw [List.filter_eq_nil_iff]
          intro x hx
          simp only [decide_eq_true_eq]
          intro hxk
          exact hk (by
            rw [show key r = key x from hr.trans hxk.symm]
            exact List.mem_map_of_mem key (ht x hx))
        rw [List.filter_cons, if_pos (by simp [hr]),
          List.filter_cons, if_pos (by simp [hr]),
          hnone rest (fun x hx => hx),
          hnone (dropDupKeepLast key rest) (mem_of_mem_dropDupKeepLast key rest)]
        rfl
      · rw [List.filter_cons, if_neg (by simp [hr]),
          List.filter_cons, if_neg (by simp [hr]),
          filter_dropDupKeepLast key k rest]

/-- C2: the emitted surrogate table has pairwise-distinct
(hyperparameters [+ activation function for the four special groups], step)
keys, and for every key the kept row is the last row of that key in table
order. -/
theorem C2_surrogate_dedup (fname : String) (rows : List SRow)
    (k : HP × Option ℚ × ℚ) :
    (surrogate_dedup fname rows).Pairwise
      (fun a b => surrogateKey (fnameHasAct fname) a ≠ surrogateKey (fnameHasAct fname) b) ∧
    (surrogate_dedup fname rows).filter
        (fun r => decide (surrogateKey (fnameHasAct fname) r = k))
      = ((rows.filter
          (fun r => decide (surrogateKey (fnameHasAct fname) r = k))).getLast?).toList :=
  ⟨pairwise_dropDupKeepLast _ rows, filter_dropDupKeepLast _ k rows⟩

/-- C2 witness: of the three duplicate-key rows of `rowsS` the last one
(payload 40) is the one kept. -/
theorem C2_surrogate_dedup_witness :
    (surrogate_dedup "mnist-max_pooling_cnn-256" rowsS).filter
        (fun r => decide (surrogateKey (fnameHasAct "mnist-max_pooling_cnn-256") r
          = (((1 : ℚ), 0, 0, 0), some (1 : ℚ), (1 : ℚ))))
      = [⟨((1 : ℚ), 0, 0, 0), 1, 1, 40⟩] :=
  ((C2_surrogate_dedup "mnist-max_pooling_cnn-256" rowsS
      (((1 : ℚ), 0, 0, 0), some (1 : ℚ), (1 : ℚ))).2).trans (by decide)

/-- C9 counterexample: the second file alone would preprocess fine, but an
`IndexError` raised while re-indexing the first file aborts the whole run;
no skip-and-continue happens (there is no exception handler in the code). -/
theorem C9_no_skip_counterexample :
    preprocess_csv "cifar_tabular.csv" tGood
      = .ok (.epochLevel [(1, none), (1, none), (2, none), (2, none)]) ∧
    preprocess_csv "bad_tabular.csv" tBad
      = .error "IndexError: np.insert into an empty array" ∧
    process_all_tabular [("bad_tabular.csv", tBad), ("cifar_tabular.csv", tGood)]
      = .error "IndexError: np.insert into an empty array" :=
  ⟨rfl, rfl, rfl⟩

/-- C9 (amended): an error raised while re-indexing one tabular file is not
caught anywhere: a completed run implies that no file raised, i.e. any
raised error aborts the whole loop instead of skipping that file. -/
theorem C9_reindex_error_aborts (inputs : List (String × List TRow))
    (outs : List POut) (pr : String × List TRow)
    (hok : process_all_tabular inputs = .ok outs) (hmem : pr ∈ inputs) :
    (preprocess_csv pr.1 pr.2).isOk = true := by
  induction inputs generalizing outs with
  | nil => exact absurd hmem (List.not_mem_nil pr)
  | cons hd tl ih =>
    obtain ⟨name, t⟩ := hd
    rw [process_all_tabular] at hok
    rcases h1 : preprocess_csv name t with e | out
    · rw [h1] at hok
      exact Except.noConfusion hok
    · rw [h1] at hok
      rcases h2 : process_all_tabular tl with e | outs'
      · rw [h2] at hok
        exact Except.noConfusion hok
      · rcases List.mem_cons.mp hmem with rfl | hmem'
        · rw [h1]
          rfl
        · exact ih outs' h2 hmem'

/-- C9 witness: a run over a single well-formed file completes, and indeed
that file preprocessed successfully. -/
theorem C9_reindex_error_aborts_witness :
    (preprocess_csv "cifar_tabular.csv" tGood).isOk = true :=
  C9_reindex_error_aborts [("cifar_tabular.csv", tGood)]
    [.epochLevel [(1, none), (1, none), (2, none), (2, none)]]
    ("cifar_tabular.csv", tGood) rfl (List.mem_cons_self _ _)

/-- C10: the claim is right and the code is wrong: `np.insert(..., -1, v)`
puts the last configuration's step count BEFORE the previous one, swapping
the last two entries of `idx_count`.  On `t10` (step counts 2, 2, 3; modal
count 2) the script drops row positions 2-4 — all of config `hpB`, whose
count is modal, plus the first row of `hpC` — instead of exactly the three
rows of the non-modal config `hpC`. -/
theorem C10_modal_count_misalignment :
    idxCountCode t10 = some [2, 3, 2] ∧
    modal_filter t10 = some [⟨hpA, 10⟩, ⟨hpA, 20⟩, ⟨hpC, 20⟩, ⟨hpC, 30⟩] ∧
    modal_filter t10 ≠ some [⟨hpA, 10⟩, ⟨hpA, 20⟩, ⟨hpB, 10⟩, ⟨hpB, 20⟩] := by
  refine ⟨rfl, rfl, ?_⟩
  intro h
  have h' := h.symm.trans (show modal_filter t10
    = some [⟨hpA, 10⟩, ⟨hpA, 20⟩, ⟨hpC, 20⟩, ⟨hpC, 30⟩] from rfl)
  exact absurd h' (by decide)

theorem mem_dedupFirst {α : Type} [DecidableEq α] :
    ∀ (l : List α) (a : α), a ∈ dedupFirst l ↔ a ∈ l
  | [], _ => Iff.rfl
  | x :: xs, a => by
    simp only [dedupFirst, List.mem_cons, List.mem_filter, decide_eq_true_eq]
    constructor
    · rintro (rfl | ⟨h, _⟩)
      · exact Or.inl rfl
      · exact Or.inr ((mem_dedupFirst xs a).mp h)
    · rintro (rfl | h)
      · exact Or.inl rfl
      · by_cases hax : a = x
        · exact Or.inl hax
        · exact Or.inr ⟨(mem_dedupFirst xs a).mpr h, hax⟩

theorem nodup_dedupFirst {α : Type} [DecidableEq α] :
    ∀ l : List α, (dedupFirst l).Nodup
  | [] => List.nodup_nil
  | x :: xs => by
    rw [dedupFirst, List.nodup_cons]
    refine ⟨fun hx => ?_, (nodup_dedupFirst xs).filter _⟩
    have := (List.mem_filter.mp hx).2
    simp at this

theorem dedupFirst_eq_self {α : Type} [DecidableEq α] :
    ∀ {l : List α}, l.Nodup → dedupFirst l = l
  | [], _ => rfl
  | x :: xs, h => by
    rw [List.nodup_cons] at h
    rw [dedupFirst, dedupFirst_eq_self h.2, List.filter_eq_self.mpr]
    intro a ha
    simp only [decide_eq_true_eq]
    exact fun he => h.1 (he ▸ ha)

theorem dedupFirst_filter {α : Type} [DecidableEq α] (p : α → Bool) :
    ∀ l : List α, (dedupFirst l).filter p = dedupFirst (l.filter p)
  | [] => rfl
  | x :: xs => by
    by_cases hp : p x
    · rw [dedupFirst, List.filter_cons, if_pos hp, List.filter_cons, if_pos hp,
        dedupFirst]
      congr 1
      rw [List.filter_filter, ← dedupFirst_filter p xs, List.filter_filter]
      exact List.filter_congr (fun a _ => Bool.and_comm _ _)
    · rw [dedupFirst, List.filter_cons, if_neg hp, List.filter_cons, if_neg hp,
        List.filter_filter]
      have hpt : ∀ a ∈ dedupFirst xs, (p a && decide (a ≠ x)) = p a := by
        intro a _
        cases hpa : p a
        · simp
        · have hax : a ≠ x := fun he => hp (he ▸ hpa)
          simp [hax]
      rw [List.filter_congr hpt, dedupFirst_filter p xs]

theorem dedupFirst_append_singleton {α : Type} [DecidableEq α] (a : α) :
    ∀ L : List α, a ∈ L → dedupFirst (L ++ [a]) = dedupFirst L
  | [], h => absurd h (List.not_mem_nil a)
  | x :: xs, h => by
    rw [List.cons_append, dedupFirst, dedupFirst]
    congr 1
    by_cases hax : a = x
    · subst hax
      rw [dedupFirst_filter, dedupFirst_filter, List.filter_append]
      have : [a].filter (fun y => decide (y ≠ a)) = [] := by simp
      rw [this, List.append_nil]
    · have ha : a ∈ xs := (List.mem_cons.mp h).resolve_left hax
      rw [dedupFirst_append_singleton a xs ha]

theorem dedupFirst_append_of_subset {α : Type} [DecidableEq α] :
    ∀ (t L : List α), (∀ y ∈ t, y ∈ L) → dedupFirst (L ++ t) = dedupFirst L
  | [], L, _ => by rw [List.append_nil]
  | y :: t', L, h => by
    have h1 : y ∈ L := h y (List.mem_cons_self y t')
    have hsplit : L ++ y :: t' = (L ++ [y]) ++ t' := by simp
    rw [hsplit,
      dedupFirst_append_of_subset t' (L ++ [y])
        (fun z hz => List.mem_append_left _ (h z (List.mem_cons_of_mem _ hz))),
      dedupFirst_append_singleton y L h1]

/-- Membership characterisation of the divergence filter: a row survives
exactly when its group's maximum cost is strictly below the quantile
threshold. -/
theorem mem_divergence_filter {q : ℚ} {rows out : List CRow}
    (hout : divergence_filter q rows = some out) (r : CRow) :
    r ∈ out ↔ r ∈ rows ∧ groupMaxCost rows r.hp < divergence_threshold q rows := by
  unfold divergence_filter at hout
  by_cases hnil : (dedupFirst (rows.map CRow.hp)).filter
      (fun k => decide (groupMaxCost rows k < divergence_threshold q rows)) = []
  · rw [if_pos hnil] at hout
    exact Option.noConfusion hout
  · rw [if_neg hnil] at hout
    have hout' := Option.some.inj hout
    subst hout'
    rw [List.mem_flatMap]
    constructor
    · rintro ⟨k, hk, hr⟩
      obtain ⟨hkmem, hklt⟩ := List.mem_filter.mp hk
      obtain ⟨hrrows, hrhp⟩ := List.mem_filter.mp hr
      simp only [decide_eq_true_eq] at hklt hrhp
      exact ⟨hrrows, hrhp ▸ hklt⟩
    · rintro ⟨hrrows, hlt⟩
      refine ⟨r.hp, List.mem_filter.mpr ⟨?_, by simpa using hlt⟩,
        List.mem_filter.mpr ⟨hrrows, by simp⟩⟩
      exact (mem_dedupFirst _ _).mpr (List.mem_map_of_mem CRow.hp hrrows)

/-- C1 (amended): the filter keeps exactly the rows of groups whose maximum
cumulative cost is strictly below the quantile threshold; in particular,
when the outlier group's maximum reaches or exceeds the threshold and every
OTHER group's maximum is strictly below it, exactly the outlier group's
rows are removed. -/
theorem C1_divergence_filter (q : ℚ) (rows out : List CRow)
    (hout : divergence_filter q rows = some out) :
    (∀ r, r ∈ out ↔
      r ∈ rows ∧ groupMaxCost rows r.hp < divergence_threshold q rows) ∧
    (∀ o : HP, o ∈ rows.map CRow.hp →
      (∀ k ∈ rows.map CRow.hp, k ≠ o →
        groupMaxCost rows k < divergence_threshold q rows) →
      divergence_threshold q rows ≤ groupMaxCost rows o →
      ∀ r, (r ∈ out ↔ r ∈ rows ∧ r.hp ≠ o)) := by
  refine ⟨fun r => mem_divergence_filter hout r, fun o _ hothers houtlier r => ?_⟩
  rw [mem_divergence_filter hout r]
  constructor
  · rintro ⟨hrrows, hlt⟩
    refine ⟨hrrows, fun heq => ?_⟩
    rw [heq] at hlt
    exact absurd hlt (not_lt.mpr houtlier)
  · rintro ⟨hrrows, hne⟩
    exact ⟨hrrows, hothers r.hp (List.mem_map_of_mem CRow.hp hrrows) hne⟩

/-- C1 witness: with maxima 1 and 100 the threshold is 1901/20; the outlier
row is removed while the other group survives. -/
theorem C1_divergence_filter_witness :
    (⟨((2 : ℚ), 0, 0, 0), 100⟩ : CRow) ∉ ([⟨((1 : ℚ), 0, 0, 0), 1⟩] : List CRow) :=
  fun hmem =>
    (((C1_divergence_filter (19/20) rows2q [⟨((1 : ℚ), 0, 0, 0), 1⟩]
        (by with_unfolding_all decide)).2 ((2 : ℚ), 0, 0, 0)
        (by with_unfolding_all decide) (by with_unfolding_all decide)
        (by with_unfolding_all decide)
        ⟨((2 : ℚ), 0, 0, 0), 100⟩).mp hmem).2 rfl

/-- C1 counterexample: twenty-one groups, twenty tied at maximum 1 and one
outlier at 100.  The 0.95 quantile of the maxima is exactly 1, so exactly
one group exceeds the threshold, yet NO group has its maximum strictly
below the threshold: every group is removed (`pd.concat` over zero frames
raises), not just the outlier group. -/
theorem C1_quantile_tie_counterexample :
    ((dedupFirst (rows21.map CRow.hp)).filter
        (fun k => decide (divergence_threshold (19/20) rows21
          < groupMaxCost rows21 k))).length = 1 ∧
    divergence_filter (19/20) rows21 = none ∧
    divergence_filter (19/20) rows21
      ≠ some (rows21.filter (fun r => decide (r.hp ≠ ((100 : ℚ), 0, 0, 0)))) := by
  have hthr : divergence_threshold (19/20) rows21 = 1 := by
    with_unfolding_all decide
  refine ⟨?_, ?_, ?_⟩
  · simp only [hthr]
    with_unfolding_all decide
  · unfold divergence_filter
    simp only [hthr]
    with_unfolding_all decide
  · unfold divergence_filter
    simp only [hthr]
    with_unfolding_all decide

theorem getLastD_mem {α : Type} : ∀ (l : List α) (d : α), l ≠ [] → l.getLastD d ∈ l
  | [], _, h => absurd rfl h
  | x :: xs, d, _ => by
    rw [List.getLastD_cons]
    by_cases hxs : xs = []
    · subst hxs
      simp [List.getLastD]
    · exact List.mem_cons_of_mem x (getLastD_mem xs x hxs)

theorem one_mem_linspace_int (b : ℤ) (num : ℕ) (h : 1 ≤ num) :
    (1 : ℤ) ∈ linspace_int 1 b num := by
  unfold linspace_int
  have hnz : ¬ (num = 0) := by omega
  by_cases h1 : num = 1
  · rw [if_neg hnz, if_pos h1]
    exact List.mem_cons_self 1 []
  · rw [if_neg hnz, if_neg h1]
    apply List.mem_append_left
    refine List.mem_map.mpr ⟨0, List.mem_range.mpr (by omega), ?_⟩
    norm_num

theorem one_mem_retain_list (n k : ℕ) (h : 1 ≤ (n + 1 - 1) / k) :
    (1 : ℤ) ∈ retain_list n k := by
  unfold retain_list
  exact one_mem_linspace_int _ _ h

theorem mem_linspace_int_stride1 (n s : ℕ) (h1 : 1 ≤ s) (h2 : s ≤ n) :
    ((s : ℕ) : ℤ) ∈ linspace_int 1 (n : ℤ) n := by
  unfold linspace_int
  have hnz : ¬ (n = 0) := by omega
  by_cases hn1 : n = 1
  · have hs1 : s = 1 := by omega
    rw [if_neg hnz, if_pos hn1, hs1]
    exact List.mem_cons_self 1 []
  · have hn2 : 2 ≤ n := by omega
    rw [if_neg hnz, if_neg hn1]
    by_cases hs : s = n
    · exact List.mem_append_right _ (by rw [hs]; exact List.mem_cons_self _ [])
    · apply List.mem_append_left
      refine List.mem_map.mpr ⟨s - 1, List.mem_range.mpr (by omega), ?_⟩
      have hne : ((n : ℚ) - 1) ≠ 0 := by
        have h2q : (2 : ℚ) ≤ (n : ℚ) := by exact_mod_cast hn2
        intro heq
        linarith
      push_cast [Nat.cast_sub h1]
      rw [div_self hne, mul_one]
      rw [show (1 : ℚ) + ((s : ℚ) - 1) = ((s : ℕ) : ℚ) by ring]
      exact_mod_cast Int.floor_natCast s

theorem not_mem_drop_list_of_mem_retain {n k : ℕ} {s : ℤ}
    (h : s ∈ retain_list n k) : s ∉ drop_list n k := by
  intro hd
  have h2 := (List.mem_filter.mp hd).2
  simp only [decide_eq_true_eq] at h2
  exact h2 h

theorem not_mem_drop_list_of_gt {n k s : ℕ} (h : n < s) :
    ((s : ℕ) : ℤ) ∉ drop_list n k := by
  intro hd
  have h1 := (List.mem_filter.mp hd).1
  rw [List.mem_map] at h1
  obtain ⟨m, hm, heq⟩ := h1
  rw [List.mem_range] at hm
  have hms : m = s := by exact_mod_cast heq
  omega

theorem mem_subsample_kept (cfgs : List (List ℚ)) (k c : ℕ)
    (hc : c < cfgs.length) (s : ℕ) :
    s ∈ (subsample_kept cfgs k).getD c [] ↔
      (1 ≤ s ∧ s < 1 + (cfgs.getD c []).length ∧
        (((s : ℕ) : ℤ) ∉ drop_list (cfgs.getLastD []).length k)) := by
  simp only [subsample_kept]
  rw [getD_map_of_lt _ cfgs c hc []]
  rw [List.mem_filter, List.mem_range'_1]
  simp only [decide_eq_true_eq]
  rw [and_assoc]

theorem map_posOf_self {α : Type} [DecidableEq α] :
    ∀ l : List α, l.Nodup → l.map (fun s => posOf l s) = List.range l.length
  | [], _ => rfl
  | x :: xs, h => by
    rw [List.nodup_cons] at h
    rw [List.map_cons]
    have hfx : posOf (x :: xs) x = 0 := by rw [posOf, if_pos rfl]
    have htail : xs.map (fun s => posOf (x :: xs) s)
        = (xs.map (fun s => posOf xs s)).map (fun i => i + 1) := by
      rw [List.map_map]
      refine List.map_congr_left (fun a ha => ?_)
      show posOf (x :: xs) a = posOf xs a + 1
      have hne : ¬ (x = a) := fun he => h.1 (he ▸ ha)
      rw [posOf, if_neg hne]
    rw [hfx, htail, map_posOf_self xs h.2, List.length_cons,
      List.range_succ_eq_map]

theorem map_posOf_succ {α : Type} [DecidableEq α] (l : List α) (h : l.Nodup) :
    l.map (fun s => posOf l s + 1) = List.range' 1 l.length := by
  have h1 : l.map (fun s => posOf l s + 1)
      = (l.map (fun s => posOf l s)).map (fun i => i + 1) := by
    rw [List.map_map]
    exact List.map_congr_left (fun a _ => rfl)
  rw [h1, map_posOf_self l h, List.range'_eq_map_range]
  exact List.map_congr_left (fun a _ => by omega)

/-- When every configuration retains the same survivor list `K0`, the
sub-epoch re-indexing relabels configuration ids to `1..C` and each
configuration's steps to `1..|K0|`. -/
theorem handle_subepoch_stride_of_const (cfgs : List (List ℚ)) (k : ℕ)
    (K0 : List ℕ) (hkept : subsample_kept cfgs k = cfgs.map (fun _ => K0))
    (hpos : 0 < cfgs.length) (h1K : 1 ∈ K0) (hnodup : K0.Nodup) :
    handle_subepoch_stride cfgs k
      = some ((List.range cfgs.length).map (fun j => (j + 1, List.range' 1 K0.length))) := by
  have hK0ne : K0 ≠ [] := by
    intro h
    rw [h] at h1K
    exact List.not_mem_nil 1 h1K
  have hgetD : ∀ c, c < cfgs.length → (cfgs.map (fun _ => K0)).getD c [] = K0 :=
    fun c hc => getD_map_of_lt _ cfgs c hc [] []
  have hIdx : (List.range (cfgs.map (fun _ : List ℚ => K0)).length).filter
      (fun c => decide ((cfgs.map (fun _ : List ℚ => K0)).getD c [] ≠ []))
      = List.range cfgs.length := by
    rw [List.length_map]
    apply List.filter_eq_self.mpr
    intro c hc
    rw [hgetD c (List.mem_range.mp hc)]
    exact decide_eq_true hK0ne
  have hrangene : ¬ (List.range cfgs.length = []) := by
    rw [List.range_eq_nil]
    omega
  have hhead : (List.range cfgs.length).headD 0 = 0 := by
    rcases hc : cfgs.length with _ | C'
    · omega
    · rw [List.range_succ_eq_map, List.headD_cons]
  have hflat : dedupFirst ((cfgs.map (fun _ : List ℚ => K0)).flatten) = K0 := by
    have hne : cfgs ≠ [] := List.length_pos.mp hpos
    obtain ⟨c0, cs, hsplit⟩ := List.exists_cons_of_ne_nil hne
    rw [hsplit, List.map_cons, List.flatten_cons,
      dedupFirst_append_of_subset _ _ (fun y hy => ?_),
      dedupFirst_eq_self hnodup]
    obtain ⟨l', hl', hyl⟩ := List.mem_flatten.mp hy
    obtain ⟨_, _, hl'K⟩ := List.mem_map.mp hl'
    exact hl'K ▸ hyl
  simp only [handle_subepoch_stride]
  rw [hkept, hIdx, if_neg hrangene, hhead, hgetD 0 hpos, hflat,
    if_neg (lt_irrefl K0.length), List.length_range]
  congr 1
  refine List.map_congr_left (fun j hj => ?_)
  have hjlt : j < cfgs.length := List.mem_range.mp hj
  have hgd : (List.range cfgs.length).getD j 0 = j := by
    rw [List.getD_eq_getElem?_getD, List.getElem?_range hjlt]
    rfl
  rw [hgd, hgetD j hjlt, map_posOf_succ K0 hnodup]

/-- C3: for a sub-epoch table whose configurations all have the same
number `n` of recorded steps and a stride `k` with `n / k ≥ 1`, the written
stride-`k` output carries configuration ids exactly `1..C` and, per
configuration, step values exactly `1..m` — both dense 1-based ranges. -/
theorem C3_subepoch_reindex_dense (cfgs : List (List ℚ)) (n k m : ℕ)
    (hne : cfgs ≠ []) (hlen : ∀ l ∈ cfgs, l.length = n)
    (hnum : 1 ≤ (n + 1 - 1) / k)
    (hm : ((subsample_kept cfgs k).getD 0 []).length = m) :
    handle_subepoch_stride cfgs k
      = some ((List.range cfgs.length).map (fun j => (j + 1, List.range' 1 m))) := by
  have hpos : 0 < cfgs.length := List.length_pos.mpr hne
  have hlast : (cfgs.getLastD []).length = n := hlen _ (getLastD_mem cfgs [] hne)
  have hk0 : k ≠ 0 := by
    rintro rfl
    rw [Nat.div_zero] at hnum
    omega
  have hkn : k ≤ n := by
    have := (Nat.le_div_iff_mul_le (Nat.pos_of_ne_zero hk0)).mp hnum
    omega
  have hn1 : 1 ≤ n := by omega
  have hkept : subsample_kept cfgs k
      = cfgs.map (fun _ => (List.range' 1 n).filter
          (fun s => decide (((s : ℕ) : ℤ) ∉ drop_list n k))) := by
    simp only [subsample_kept, hlast]
    exact List.map_congr_left (fun l hl => by rw [hlen l hl])
  have h1K : 1 ∈ (List.range' 1 n).filter
      (fun s => decide (((s : ℕ) : ℤ) ∉ drop_list n k)) := by
    refine List.mem_filter.mpr ⟨List.mem_range'_1.mpr ⟨le_refl 1, by omega⟩, ?_⟩
    apply decide_eq_true
    exact_mod_cast not_mem_drop_list_of_mem_retain (one_mem_retain_list n k hnum)
  have hnodup : ((List.range' 1 n).filter
      (fun s => decide (((s : ℕ) : ℤ) ∉ drop_list n k))).Nodup :=
    (List.nodup_range' 1 n).filter _
  have hm' : ((List.range' 1 n).filter
      (fun s => decide (((s : ℕ) : ℤ) ∉ drop_list n k))).length = m := by
    rw [← hm, hkept, getD_map_of_lt _ cfgs 0 hpos []]
  rw [← hm']
  exact handle_subepoch_stride_of_const cfgs k _ hkept hpos h1K hnodup

/-- C3 witness: two configurations of two sub-epoch steps each at stride 2
come out with ids 1, 2 and dense steps. -/
theorem C3_subepoch_reindex_dense_witness :
    handle_subepoch_stride cfgs2 2 = some [(1, [1]), (2, [1])] := by
  have h := C3_subepoch_reindex_dense cfgs2 2 2 1 (by with_unfolding_all decide)
    (by with_unfolding_all decide) (by with_unfolding_all decide)
    (by with_unfolding_all decide)
  rw [h]
  with_unfolding_all decide

/-- C4: the stride-`k` subsampling of a sub-epoch table retains, for every
configuration, a subset of the (renumbered) steps retained at stride 1,
and always retains step 1. -/
theorem C4_subsample_stride_subset (cfgs : List (List ℚ)) (k c : ℕ)
    (hnum : 1 ≤ ((cfgs.getLastD []).length + 1 - 1) / k)
    (hlen : 1 ≤ (cfgs.getD c []).length) :
    ((subsample_kept cfgs k).getD c [] ⊆ (subsample_kept cfgs 1).getD c []) ∧
    1 ∈ (subsample_kept cfgs k).getD c [] := by
  have hk0 : k ≠ 0 := by
    rintro rfl
    rw [Nat.div_zero] at hnum
    omega
  have hkn : k ≤ (cfgs.getLastD []).length := by
    have := (Nat.le_div_iff_mul_le (Nat.pos_of_ne_zero hk0)).mp hnum
    omega
  have hc : c < cfgs.length := by
    by_contra hge
    push_neg at hge
    rw [List.getD_eq_getElem?_getD, List.getElem?_eq_none hge] at hlen
    simp at hlen
  constructor
  · intro s hs
    rw [mem_subsample_kept cfgs k c hc] at hs
    rw [mem_subsample_kept cfgs 1 c hc]
    obtain ⟨h1, h2, _⟩ := hs
    refine ⟨h1, h2, ?_⟩
    by_cases hsn : s ≤ (cfgs.getLastD []).length
    · apply not_mem_drop_list_of_mem_retain
      show ((s : ℕ) : ℤ) ∈ retain_list (cfgs.getLastD []).length 1
      unfold retain_list
      rw [Nat.add_sub_cancel, Nat.div_one]
      exact mem_linspace_int_stride1 _ s h1 hsn
    · exact not_mem_drop_list_of_gt (by omega)
  · rw [mem_subsample_kept cfgs k c hc]
    exact ⟨le_refl 1, by omega,
      by exact_mod_cast not_mem_drop_list_of_mem_retain (one_mem_retain_list _ k hnum)⟩

/-- C4 witness: a ten-step configuration at stride 10 retains step 1, which
is also retained at stride 1. -/
theorem C4_subsample_stride_subset_witness :
    1 ∈ (subsample_kept cfgs10 10).getD 0 [] ∧
    1 ∈ (subsample_kept cfgs10 1).getD 0 [] := by
  have h := C4_subsample_stride_subset cfgs10 10 0 (by with_unfolding_all decide)
    (by with_unfolding_all decide)
  exact ⟨h.2, h.1 h.2⟩

end PD1
